import Mathlib

/-!
Verification model of the RAG retrieval pipeline of this repository
(text chunking, hash-fallback embedding, cosine vector search, ranking,
department filtering, answer composition).

Python strings are modelled as lists of characters (`Str`), Python floats as
exact rationals (`ℚ`) with real-number (`ℝ`) interpretation where a square
root is involved, raised exceptions as `Option`/`none`, and in-place mutation
as explicit state passing.
-/

/-- Python strings are modelled as lists of characters. -/
abbrev Str := List Char

/-- Conversion from a Lean string literal to the model's string type. -/
def str (s : String) : Str := s.data

/-- Whitespace test matching Python's default `str.split` / `str.strip`
separators (space, tab, newline, carriage return, vertical tab, form feed). -/
def isWs (c : Char) : Bool :=
  c = ' ' || c = '\t' || c = '\n' || c = '\r' || c = '\x0b' || c = '\x0c'

/-- Model of Python `str.strip()`: drop leading and trailing whitespace. -/
def pyStrip (l : Str) : Str :=
  ((l.dropWhile (isWs ·)).reverse.dropWhile (isWs ·)).reverse

/-- Model of Python `str.lower()` (character-wise lowering). -/
def pyLower (l : Str) : Str := l.map Char.toLower

/-- Accumulator-passing worker for `pySplit`; `acc` holds the current word
reversed. -/
def pySplitAux : Str → Str → List Str
  | [], acc => if acc.isEmpty then [] else [acc.reverse]
  | c :: cs, acc =>
    if isWs c then
      if acc.isEmpty then pySplitAux cs [] else acc.reverse :: pySplitAux cs []
    else pySplitAux cs (c :: acc)

/-- Model of Python `str.split()` with no argument: split on whitespace runs,
dropping empty pieces. -/
def pySplit (l : Str) : List Str := pySplitAux l []

/-- Model of Python `sep.join(pieces)` for a one-character separator. -/
def joinSep (sep : Char) : List Str → Str
  | [] => []
  | [w] => w
  | w :: x :: xs => w ++ sep :: joinSep sep (x :: xs)

/-- Worker for `collapseWs`; `prevWs` records whether the previous character
was whitespace (in which case further whitespace is absorbed into the same
run). -/
def collapseWsAux : Bool → Str → Str
  | _, [] => []
  | prevWs, c :: cs =>
    if isWs c then
      if prevWs then collapseWsAux true cs else ' ' :: collapseWsAux true cs
    else c :: collapseWsAux false cs

/-- Model of `re.sub(r'\s+', ' ', s)`: replace every maximal whitespace run
by a single space. -/
def collapseWs (l : Str) : Str := collapseWsAux false l

/-- Model of `BasicTextProcessor.clean_text`: lowercase, collapse whitespace
runs to a single space, strip, then drop blank lines and rejoin with
newlines. -/
def cleanText (t : Str) : Str :=
  if t = [] then []
  else
    let c3 := pyStrip (collapseWs (pyLower t))
    joinSep '\n' (((c3.splitOn '\n').map pyStrip).filter (fun l => !l.isEmpty))

/-- One loop body's chunk handling in `BasicTextProcessor.split_text`:
`chunk = " ".join(words[start:end]); if chunk.strip(): chunks.append(chunk.strip())`
with `end = min(start + chunk_size, len(words))`. -/
def chunkAppend (w : List Str) (c start : ℕ) (acc : List Str) : List Str :=
  let chunk := pyStrip (joinSep ' ' ((w.drop start).take (min (start + c) w.length - start)))
  if chunk.isEmpty then acc else acc ++ [chunk]

/-- Model of the `while start < len(words)` loop of
`BasicTextProcessor.split_text`, with explicit fuel: `none` means the fuel ran
out, i.e. the Python loop has not terminated within that many iterations.
Note `min (start + c) w.length - o` on `ℕ` is truncated subtraction, which
models exactly `start = end - overlap` followed by `if start < 0: start = 0`. -/
def splitLoop (w : List Str) (c o : ℕ) : ℕ → ℕ → List Str → Option (List Str)
  | 0, _, _ => none
  | fuel + 1, start, acc =>
    if start < w.length then
      if w.length ≤ min (start + c) w.length then some (chunkAppend w c start acc)
      else splitLoop w c o fuel (min (start + c) w.length - o) (chunkAppend w c start acc)
    else some acc

/-- Model of `BasicTextProcessor.split_text(text, chunk_size, overlap)`.
`none` means the loop did not terminate within `fuel` iterations. -/
def splitTextFuel (fuel c o : ℕ) (text : Str) : Option (List Str) :=
  if (pyStrip text).isEmpty then some []
  else
    let cleaned := cleanText text
    let words := pySplit cleaned
    if words.length ≤ c then some [cleaned]
    else splitLoop words c o fuel 0 []

/-- Dot product of two float vectors (`np.dot`; `zipWith` truncates at the
shorter vector, the stored and query vectors have equal dimension in use). -/
def dotQ (a b : List ℚ) : ℚ := (List.zipWith (· * ·) a b).sum

/-- Squared Euclidean norm: `np.linalg.norm(v) ** 2 = v · v`. -/
def normSq (a : List ℚ) : ℚ := dotQ a a

/-- Exact representation of the cosine similarity computed per row by
`SQLiteVectorRepository.search_similar`:
`np.dot(q, s) / (np.linalg.norm(q) * np.linalg.norm(s))` is kept as the pair
`(q·s, ‖q‖²·‖s‖²)`; its float value is `q·s / sqrt(‖q‖²·‖s‖²)`. -/
def simPair (q s : List ℚ) : ℚ × ℚ := (dotQ q s, normSq q * normSq s)

/-- Real value of a similarity pair. The division in the code is not guarded:
when the denominator is zero the float result is IEEE NaN (no number), which
is modelled as `none`. -/
noncomputable def simVal (p : ℚ × ℚ) : Option ℝ :=
  if p.2 = 0 then none else some ((p.1 : ℝ) / Real.sqrt (p.2 : ℝ))

/-- Total real value of a similarity pair; meaningful when the denominator is
positive. -/
noncomputable def simValPos (p : ℚ × ℚ) : ℝ := (p.1 : ℝ) / Real.sqrt (p.2 : ℝ)

/-- Float comparison `x.similarity_score > y.similarity_score` between two
exact similarity pairs, decidably: for positive denominators this is the
order of the real values `d / sqrt(P)`. -/
def gtPair (p q : ℚ × ℚ) : Bool :=
  if 0 < p.1 then
    if 0 < q.1 then decide (q.1 ^ 2 * p.2 < p.1 ^ 2 * q.2) else true
  else if 0 < q.1 then false
  else decide (p.1 ^ 2 * q.2 < q.1 ^ 2 * p.2)

/-- Insert `a` into a descending-sorted list, after every strictly greater
element and before equal ones: the insertion step of a stable descending
sort (the semantics of Python's stable `list.sort(reverse=True)`). -/
def insertDesc (gt : α → α → Bool) (a : α) : List α → List α
  | [] => [a]
  | y :: ys => if gt y a then y :: insertDesc gt a ys else a :: y :: ys

/-- Stable descending sort (insertion sort), modelling
`similarities.sort(key=lambda x: x.similarity_score, reverse=True)`. -/
def sortDesc (gt : α → α → Bool) : List α → List α
  | [] => []
  | x :: xs => insertDesc gt x (sortDesc gt xs)

/-- Boolean equivalence under a strict comparison: neither strictly greater;
for similarity pairs with positive denominators this is equality of scores. -/
def eqvB (gt : α → α → Bool) (x y : α) : Bool := !gt x y && !gt y x

/-- Domain entity `Document`. `metaDepartment` models the only metadata key
the application reads (`metadata.get("department")`). -/
structure Document where
  id : Option ℕ
  title : Str
  content : Str
  category : Str
  metaDepartment : Option Str
  deriving DecidableEq

/-- Domain entity `DocumentChunk`, polymorphic in the score representation:
the vector repository produces exact similarity pairs (`ℚ × ℚ`), the
application layer treats scores as plain numbers (`ℚ`). -/
structure DocumentChunk (σ : Type) where
  id : Option ℕ
  document_id : ℕ
  chunk_text : Str
  embedding : List ℚ
  chunk_index : ℕ
  similarity_score : σ
  deriving DecidableEq

/-- Domain entity `SearchResult`: a document, one of its chunks, and the
chunk's similarity copied into `relevance_score`. -/
structure SearchResult (σ : Type) where
  document : Document
  chunk : DocumentChunk σ
  relevance_score : σ
  deriving DecidableEq

/-- A row of the SQLite `embeddings` table. -/
structure EmbRow where
  id : ℕ
  document_id : ℕ
  chunk_text : Str
  embedding : List ℚ
  chunk_index : ℕ
  deriving DecidableEq

/-- A row of the SQLite `documents` table (the fields the search join and
hydration read). -/
structure DocRow where
  id : ℕ
  title : Str
  content : Str
  category : Str
  metaDepartment : Option Str
  deriving DecidableEq

/-- The `DocumentChunk` built for one fetched row in `search_similar`, with
its cosine similarity against the query. -/
def rowSim (q : List ℚ) (e : EmbRow) : DocumentChunk (ℚ × ℚ) :=
  { id := some e.id, document_id := e.document_id, chunk_text := e.chunk_text,
    embedding := e.embedding, chunk_index := e.chunk_index,
    similarity_score := simPair q e.embedding }

/-- The SQL category join of `search_similar`:
`JOIN documents d ON e.document_id = d.id WHERE d.category = ?`. -/
def categoryJoin (docs : List DocRow) (c : Str) (e : EmbRow) : Bool :=
  docs.any (fun d => d.id == e.document_id && d.category == c)

/-- The rows fetched by `search_similar`: all embeddings, or only those whose
document matches the requested category. -/
def searchRows (embs : List EmbRow) (docs : List DocRow) (category : Option Str) : List EmbRow :=
  match category with
  | some c => embs.filter (categoryJoin docs c)
  | none => embs

/-- The scored chunk list (`similarities`) built by `search_similar` before
sorting, in retrieval order. -/
def simChunks (embs : List EmbRow) (docs : List DocRow) (q : List ℚ)
    (category : Option Str) : List (DocumentChunk (ℚ × ℚ)) :=
  (searchRows embs docs category).map (rowSim q)

/-- Chunk comparison by similarity score, as used by the sort. -/
def gtChunk (a b : DocumentChunk (ℚ × ℚ)) : Bool :=
  gtPair a.similarity_score b.similarity_score

/-- Model of `SQLiteVectorRepository.search_similar`: score every fetched
row, stable-sort descending by similarity, return the first `top_k`. -/
def searchSimilar (embs : List EmbRow) (docs : List DocRow) (q : List ℚ)
    (topK : ℕ) (category : Option Str) : List (DocumentChunk (ℚ × ℚ)) :=
  (sortDesc gtChunk (simChunks embs docs q category)).take topK

/-- Real similarity value of a scored chunk. -/
noncomputable def chunkVal (ch : DocumentChunk (ℚ × ℚ)) : ℝ :=
  simValPos ch.similarity_score

/-- Hydration loop of `RAGServiceImpl.search_documents`: look up each chunk's
parent document, drop chunks whose parent is missing, copy the similarity
into `relevance_score`. -/
def hydrate {σ : Type} (getDoc : ℕ → Option Document) (chunks : List (DocumentChunk σ)) :
    List (SearchResult σ) :=
  chunks.filterMap fun ch =>
    (getDoc ch.document_id).map fun d =>
      { document := d, chunk := ch, relevance_score := ch.similarity_score }

/-- Real relevance value of a hydrated repository-level search result. -/
noncomputable def resultVal (r : SearchResult (ℚ × ℚ)) : ℝ :=
  simValPos r.relevance_score

/-- Decimal digits of a natural number, for the f-string interpolation in the
template answer. -/
def natStr (n : ℕ) : Str := Nat.toDigits 10 n

/-- The static department → categories table of
`DepartmentContextServiceImpl.__init__`. -/
def departmentCategories : List (Str × List Str) :=
  [(str "rrhh", [str "beneficios", str "vacaciones", str "desarrollo", str "diversidad",
      str "compensacion", str "etica"]),
   (str "it", [str "trabajo_remoto", str "desarrollo", str "innovacion", str "tecnologia"]),
   (str "legal", [str "etica", str "cumplimiento", str "politicas", str "contratos"]),
   (str "finanzas", [str "compensacion", str "beneficios", str "presupuesto"]),
   (str "marketing", [str "comunicacion", str "branding", str "eventos"]),
   (str "ventas", [str "incentivos", str "comisiones", str "objetivos"]),
   (str "operaciones", [str "procesos", str "calidad", str "eficiencia"]),
   (str "general", [])]

/-- The static department → keywords table of
`DepartmentContextServiceImpl.__init__`. -/
def departmentKeywords : List (Str × List Str) :=
  [(str "rrhh", [str "empleado", str "personal", str "contratación", str "beneficio",
      str "salario", str "vacaciones"]),
   (str "it", [str "tecnología", str "sistema", str "software", str "desarrollo", str "código"]),
   (str "legal", [str "legal", str "contrato", str "cumplimiento", str "regulación", str "ley"]),
   (str "finanzas", [str "financiero", str "presupuesto", str "costo", str "inversión", str "gasto"]),
   (str "marketing", [str "marketing", str "publicidad", str "campaña", str "marca", str "cliente"]),
   (str "ventas", [str "venta", str "cliente", str "objetivo", str "comisión", str "meta"]),
   (str "operaciones", [str "proceso", str "operación", str "calidad", str "eficiencia",
      str "producción"])]

/-- Python `dict.get(key, [])` on an association table. -/
def lookupTable (tbl : List (Str × List Str)) (k : Str) : List Str :=
  match tbl.find? (fun p => p.1 == k) with
  | some p => p.2
  | none => []

/-- Model of `get_department_categories`: lowercase the department (`"general"`
when empty) and look it up, defaulting to `[]`. -/
def getDepartmentCategories (department : Str) : List Str :=
  lookupTable departmentCategories
    (if department.isEmpty then str "general" else pyLower department)

/-- Model of `get_available_departments`: the keys of the category table. -/
def availableDepartments : List Str := departmentCategories.map Prod.fst

/-- One iteration of the `for doc in documents` loop of
`filter_by_department`.  Returns the post-iteration state of the input object
(first component; the keyword branch mutates `doc.relevance_score` in place)
and the element appended to `filtered_docs`, if any (second component, which
aliases the mutated object). -/
def filterStep (cats kws : List Str) (doc : SearchResult ℚ) :
    SearchResult ℚ × Option (SearchResult ℚ) :=
  if !cats.isEmpty && decide (doc.document.category ∈ cats) then (doc, some doc)
  else if kws.any (fun kw =>
      decide (kw <:+: pyLower (doc.chunk.chunk_text ++ str " " ++ doc.document.title))) then
    let penalized := { doc with relevance_score := doc.relevance_score * (4/5 : ℚ) }
    (penalized, some penalized)
  else (doc, none)

/-- Model of `DepartmentContextServiceImpl.filter_by_department` with the
state made explicit: the first component is the post-call state of the
caller's `SearchResult` objects (in input order), the second is the returned
filtered list.  `0.8` is the exact rational `4/5`. -/
def filterByDepartment (docs : List (SearchResult ℚ)) (department : Str) :
    List (SearchResult ℚ) × List (SearchResult ℚ) :=
  if department.isEmpty || pyLower department == str "general" then (docs, docs)
  else
    let cats := getDepartmentCategories (pyLower department)
    let kws := lookupTable departmentKeywords (pyLower department)
    let stepped := docs.map (filterStep cats kws)
    (stepped.map Prod.fst, stepped.filterMap Prod.snd)

/-- The injected collaborators of `RAGServiceImpl` (embedding service, vector
repository, document repository, optional OpenAI client).  `aiGenerate`
returning `none` models `generate_rag_response` raising `AIServiceError`. -/
structure RagDeps where
  encode : Str → List ℚ
  vsearch : List ℚ → ℕ → Option Str → List (DocumentChunk ℚ)
  getDoc : ℕ → Option Document
  aiAvailable : Bool
  aiGenerate : Str → Str → Option Str

/-- Model of `RAGServiceImpl.search_documents`: validate the query, encode
its stripped form, search the vector store, hydrate each returned chunk with
its parent document (dropping chunks whose parent is missing).  `none` models
a raised `InvalidQueryError`. -/
def searchDocuments (D : RagDeps) (query : Str) (topK : ℕ) (category : Option Str) :
    Option (List (SearchResult ℚ)) :=
  if (pyStrip query).isEmpty then none
  else some (hydrate D.getDoc (D.vsearch (D.encode (pyStrip query)) topK category))

/-- The domain `RAGResponse` (timestamp omitted: never read by the flow). -/
structure RAGResponse where
  answer : Str
  sources : List (SearchResult ℚ)
  confidence : ℚ
  query : Str
  deriving DecidableEq

/-- The fixed no-information answer of `RAGServiceImpl.generate_response`. -/
def noInfoAnswer : Str :=
  str "Lo siento, no encontré información relevante sobre tu consulta en las políticas de RRHH de Google."

/-- The context string built for the answer generator:
`Documento: {title}` / `Contenido: {chunk_text}` / `---` per result, joined
with newlines. -/
def buildContext (results : List (SearchResult ℚ)) : Str :=
  joinSep '\n' ((results.map (fun r =>
    [str "Documento: " ++ r.document.title,
     str "Contenido: " ++ r.chunk.chunk_text,
     str "---"])).flatten)

/-- Model of `RAGServiceImpl._generate_template_response` (the quote marks
around the title are elided from the literal). -/
def templateResponse (results : List (SearchResult ℚ)) : Str :=
  match results with
  | [] => str "No encontré información específica sobre tu consulta en las políticas de Google."
  | best :: _ =>
    let base := str "Basándome en las políticas de RRHH de Google, específicamente en "
      ++ best.document.title ++ str ":" ++ str "\n\n" ++ best.chunk.chunk_text.take 400
    let base2 := if 400 < best.chunk.chunk_text.length then base ++ str "..." else base
    if 1 < results.length then
      base2 ++ str "\n\nTambién encontré información relacionada en "
        ++ natStr (results.length - 1) ++ str " documento(s) adicional(es)."
    else base2

/-- Model of `RAGServiceImpl.generate_response`: validate, search with the
fixed internal `top_k = 3`, answer from the no-result template, the OpenAI
generator (falling back to the template on failure) or the template, and a
confidence equal to the arithmetic mean of the relevance scores of all
hydrated results. -/
def generateResponse (D : RagDeps) (query : Str) (useAi : Bool) : Option RAGResponse :=
  if (pyStrip query).isEmpty then none
  else
    match searchDocuments D query 3 none with
    | none => none
    | some results =>
      if results.isEmpty then
        some { answer := noInfoAnswer, sources := [], confidence := 0, query := query }
      else
        let context := buildContext results
        let answer :=
          if useAi && D.aiAvailable then
            match D.aiGenerate query context with
            | some a => a
            | none => templateResponse results
          else templateResponse results
        some { answer := answer, sources := results,
               confidence := (results.map (fun r => r.relevance_score)).sum / (results.length : ℚ),
               query := query }

/-- DTO `AskQuestionRequest` (`department = none` models an absent or empty
department, which Python treats as falsy). -/
structure AskQuestionRequest where
  question : Str
  department : Option Str
  useAi : Bool
  topK : ℤ
  deriving DecidableEq

/-- DTO `DocumentInfo`. -/
structure DocumentInfo where
  id : Option ℕ
  title : Str
  category : Str
  department : Option Str
  similarity : ℚ
  deriving DecidableEq

/-- DTO `SourceInfo`. -/
structure SourceInfo where
  document : DocumentInfo
  chunk_text : Str
  relevance_score : ℚ
  deriving DecidableEq

/-- DTO `AskQuestionResponse` (timestamp omitted: never read). -/
structure AskQuestionResponse where
  answer : Str
  question : Str
  sources : List SourceInfo
  confidence : ℚ
  department : Option Str
  deriving DecidableEq

/-- Conversion of one domain search result to its DTO in
`_convert_to_response_dto` (chunk text truncated at 200 characters). -/
def toSourceInfo (r : SearchResult ℚ) : SourceInfo :=
  { document :=
      { id := r.document.id
        title := r.document.title
        category := r.document.category
        department := r.document.metaDepartment
        similarity := r.chunk.similarity_score },
    chunk_text := if 200 < r.chunk.chunk_text.length
      then r.chunk.chunk_text.take 200 ++ str "..." else r.chunk.chunk_text,
    relevance_score := r.relevance_score }

/-- Model of `AskQuestionUseCaseImpl._convert_to_response_dto`. -/
def convertToResponseDto (resp : RAGResponse) (req : AskQuestionRequest) : AskQuestionResponse :=
  { answer := resp.answer, question := req.question,
    sources := resp.sources.map toSourceInfo,
    confidence := resp.confidence, department := req.department }

/-- Model of `AskQuestionUseCaseImpl._get_no_results_message`. -/
def noResultsMessage (department : Option Str) : Str :=
  match department with
  | some d =>
    str "No encontré información específica sobre tu consulta en las políticas del departamento de "
      ++ d ++ str ". Puedes intentar con una pregunta más general o consultar otro departamento."
  | none =>
    str "No encontré información relevante sobre tu consulta en las políticas disponibles. Puedes intentar reformular tu pregunta o especificar un departamento específico."

/-- Model of `AskQuestionUseCaseImpl._validate_request`: non-blank question of
at most 1000 characters, `top_k` in `[1, 20]`, and a known department when
one is given. -/
def validateRequest (req : AskQuestionRequest) : Bool :=
  !(pyStrip req.question).isEmpty
  && decide (req.question.length ≤ 1000)
  && (decide (1 ≤ req.topK) && decide (req.topK ≤ 20))
  && (match req.department with
      | none => true
      | some d => decide (pyLower d ∈ availableDepartments))

/-- Model of `AskQuestionUseCaseImpl.execute`: validate, search with the
caller's `top_k`, filter by department when one is given, then either return
the no-results response (when the filtered list is empty) or delegate to
`generate_response` — which re-runs its own search — and convert to the DTO.
`none` models a raised domain exception. -/
def execute (D : RagDeps) (req : AskQuestionRequest) : Option AskQuestionResponse :=
  if !validateRequest req then none
  else
    match searchDocuments D req.question req.topK.toNat none with
    | none => none
    | some results =>
      let filtered := match req.department with
        | some d => (filterByDepartment results d).2
        | none => results
      let rag : Option RAGResponse :=
        if filtered.isEmpty then
          some { answer := noResultsMessage req.department, sources := [],
                 confidence := 0, query := req.question }
        else generateResponse D req.question req.useAi
      match rag with
      | none => none
      | some r => some (convertToResponseDto r req)

/-- C5 failing input: a document of category `vacaciones` (no IT keywords). -/
def docVac : Document :=
  { id := some 1, title := str "Política de Vacaciones", content := str "",
    category := str "vacaciones", metaDepartment := none }

/-- C5 failing input: a document of category `trabajo_remoto` (an IT
category). -/
def docRem : Document :=
  { id := some 2, title := str "Política de Trabajo Remoto", content := str "",
    category := str "trabajo_remoto", metaDepartment := none }

/-- C5 failing input: top-scored chunk of the `vacaciones` document. -/
def chunkVac : DocumentChunk ℚ :=
  { id := some 11, document_id := 1, chunk_text := str "dias de descanso anuales",
    embedding := [], chunk_index := 0, similarity_score := 9/10 }

/-- C5 failing input: lower-scored chunk of the `trabajo_remoto` document. -/
def chunkRem : DocumentChunk ℚ :=
  { id := some 12, document_id := 2, chunk_text := str "modelo hibrido de oficina",
    embedding := [], chunk_index := 0, similarity_score := 8/10 }

/-- C5 failing input: collaborators whose vector search ranks the
`vacaciones` chunk first. -/
def depsC5 : RagDeps :=
  { encode := fun _ => [1],
    vsearch := fun _ k _ => List.take k [chunkVac, chunkRem],
    getDoc := fun i => if i = 1 then some docVac else if i = 2 then some docRem else none,
    aiAvailable := false,
    aiGenerate := fun _ _ => none }

/-- C5 failing input: an ask request for department `it`. -/
def reqC5 : AskQuestionRequest :=
  { question := str "politicas de la empresa", department := some (str "it"),
    useAi := false, topK := 5 }

/-- C9 counterexample input: a `vacaciones` result whose text contains the
IT keyword `software`, so the filter takes the penalty path. -/
def srSoft : SearchResult ℚ :=
  { document :=
      { id := some 3, title := str "Guia general", content := str "",
        category := str "vacaciones", metaDepartment := none },
    chunk :=
      { id := some 31, document_id := 3, chunk_text := str "actualizar el software interno",
        embedding := [], chunk_index := 0, similarity_score := 1 },
    relevance_score := 1 }

/-- C10 witness input: a request whose `top_k` is out of range. -/
def reqBad : AskQuestionRequest :=
  { question := str "hola", department := none, useAi := false, topK := 0 }

/-- C7 witness: the hydrated result list for query `"hola"` against the C5
collaborators. -/
def rsC7 : List (SearchResult ℚ) :=
  [{ document := docVac, chunk := chunkVac, relevance_score := 9/10 },
   { document := docRem, chunk := chunkRem, relevance_score := 8/10 }]

/-- Truncation to a 32-bit word. -/
def w32 (x : ℕ) : ℕ := x % 2 ^ 32

/-- Right rotation of a 32-bit word by `n`. -/
def rotr32 (n x : ℕ) : ℕ := w32 (x / 2 ^ n + x % 2 ^ n * 2 ^ (32 - n))

/-- Logical right shift of a 32-bit word by `n`. -/
def shr32 (n x : ℕ) : ℕ := x / 2 ^ n

/-- SHA-256 `Σ0`. -/
def bigS0 (x : ℕ) : ℕ := rotr32 2 x ^^^ rotr32 13 x ^^^ rotr32 22 x

/-- SHA-256 `Σ1`. -/
def bigS1 (x : ℕ) : ℕ := rotr32 6 x ^^^ rotr32 11 x ^^^ rotr32 25 x

/-- SHA-256 `σ0`. -/
def smallS0 (x : ℕ) : ℕ := rotr32 7 x ^^^ rotr32 18 x ^^^ shr32 3 x

/-- SHA-256 `σ1`. -/
def smallS1 (x : ℕ) : ℕ := rotr32 17 x ^^^ rotr32 19 x ^^^ shr32 10 x

/-- SHA-256 `Ch` (complement as xor with the 32-bit mask). -/
def chF (x y z : ℕ) : ℕ := (x &&& y) ^^^ ((x ^^^ (2 ^ 32 - 1)) &&& z)

/-- SHA-256 `Maj`. -/
def majF (x y z : ℕ) : ℕ := (x &&& y) ^^^ (x &&& z) ^^^ (y &&& z)

/-- The 64 SHA-256 round constants. -/
def sha256K : List ℕ :=
  [1116352408, 1899447441, 3049323471, 3921009573, 961987163, 1508970993,
   2453635748, 2870763221, 3624381080, 310598401, 607225278, 1426881987,
   1925078388, 2162078206, 2614888103, 3248222580, 3835390401, 4022224774,
   264347078, 604807628, 770255983, 1249150122, 1555081692, 1996064986,
   2554220882, 2821834349, 2952996808, 3210313671, 3336571891, 3584528711,
   113926993, 338241895, 666307205, 773529912, 1294757372, 1396182291,
   1695183700, 1986661051, 2177026350, 2456956037, 2730485921, 2820302411,
   3259730800, 3345764771, 3516065817, 3600352804, 4094571909, 275423344,
   430227734, 506948616, 659060556, 883997877, 958139571, 1322822218,
   1537002063, 1747873779, 1955562222, 2024104815, 2227730452, 2361852424,
   2428436474, 2756734187, 3204031479, 3329325298]

/-- The SHA-256 initial hash state. -/
def sha256H0 : List ℕ :=
  [1779033703, 3144134277, 1013904242, 2773480762, 1359893119, 2600822924,
   528734635, 1541459225]

/-- The `k` big-endian bytes of `n`. -/
def bytesBE (k n : ℕ) : List ℕ :=
  (List.range k).map (fun i => n / 2 ^ (8 * (k - 1 - i)) % 256)

/-- SHA-256 padding: `0x80`, zeros to 56 mod 64, then the bit length as 8
big-endian bytes. -/
def sha256Pad (msg : List ℕ) : List ℕ :=
  msg ++ [0x80] ++ List.replicate ((64 + 55 - msg.length % 64) % 64) 0
    ++ bytesBE 8 (msg.length * 8)

/-- Group bytes into 32-bit big-endian words. -/
def wordsBE : List ℕ → List ℕ
  | b0 :: b1 :: b2 :: b3 :: rest => (((b0 * 256 + b1) * 256 + b2) * 256 + b3) :: wordsBE rest
  | _ => []

/-- Extend the 16 message-schedule words by `n` more rounds. -/
def schedRounds : ℕ → List ℕ → List ℕ
  | 0, ws => ws
  | n + 1, ws =>
    schedRounds n (ws ++ [w32 (smallS1 (ws.getD (ws.length - 2) 0) + ws.getD (ws.length - 7) 0
      + smallS0 (ws.getD (ws.length - 15) 0) + ws.getD (ws.length - 16) 0)])

/-- One SHA-256 compression round on the state `[a,b,c,d,e,f,g,h]`. -/
def compressStep (s : List ℕ) (kw : ℕ × ℕ) : List ℕ :=
  let t1 := w32 (s.getD 7 0 + bigS1 (s.getD 4 0)
    + chF (s.getD 4 0) (s.getD 5 0) (s.getD 6 0) + kw.1 + kw.2)
  let t2 := w32 (bigS0 (s.getD 0 0) + majF (s.getD 0 0) (s.getD 1 0) (s.getD 2 0))
  [w32 (t1 + t2), s.getD 0 0, s.getD 1 0, s.getD 2 0,
   w32 (s.getD 3 0 + t1), s.getD 4 0, s.getD 5 0, s.getD 6 0]

/-- Compress one 64-byte block into the hash state. -/
def compressBlock (H : List ℕ) (block : List ℕ) : List ℕ :=
  let ws := schedRounds 48 (wordsBE block)
  let s := (List.zip sha256K ws).foldl compressStep H
  List.zipWith (fun x y => w32 (x + y)) H s

/-- Fold the compression over all 64-byte blocks (structural recursion on a
block-count budget, which the caller picks larger than the block count; a
64-byte block is consumed per step until the message is exhausted). -/
def sha256Blocks : ℕ → List ℕ → List ℕ → List ℕ
  | 0, H, _ => H
  | fuel + 1, H, rest =>
    if rest.isEmpty then H
    else sha256Blocks fuel (compressBlock H (rest.take 64)) (rest.drop 64)

/-- SHA-256 digest (as a list of 32 bytes) of a byte message, as
`hashlib.sha256(...).digest()`. -/
def sha256Bytes (msg : List ℕ) : List ℕ :=
  ((sha256Blocks (sha256Pad msg).length sha256H0 (sha256Pad msg)).map
    (fun wd => bytesBE 4 wd)).flatten

/-- UTF-8 encoding of one character (`str.encode("utf-8")`). -/
def utf8Char (c : Char) : List ℕ :=
  let n := c.toNat
  if n < 0x80 then [n]
  else if n < 0x800 then [0xC0 + n / 64, 0x80 + n % 64]
  else if n < 0x10000 then [0xE0 + n / 4096, 0x80 + n / 64 % 64, 0x80 + n % 64]
  else [0xF0 + n / 262144, 0x80 + n / 4096 % 64, 0x80 + n / 64 % 64, 0x80 + n % 64]

/-- UTF-8 encoding of a string. -/
def utf8Encode (s : Str) : List ℕ := (s.map utf8Char).flatten

/-- Model of `SentenceTransformerService.encode_text` when no model is
available (the deterministic hash fallback): reject blank text
(`EmbeddingGenerationError`, modelled as `none`), hash the stripped text with
SHA-256, pad the 32 digest bytes with zero bytes to 128 entries, and map each
byte `b` to the float `b / 255.0`. -/
def encodeText (text : Str) : Option (List ℚ) :=
  if (pyStrip text).isEmpty then none
  else
    let h := sha256Bytes (utf8Encode (pyStrip text))
    let padded := if 128 ≤ h.length then h.take 128 else h ++ List.replicate (128 - h.length) 0
    some (padded.map (fun (b : ℕ) => (b : ℚ) / 255))

section TextLemmas

/-- Every word produced by `pySplitAux` is nonempty and whitespace-free. -/
theorem pySplitAux_quality (l : Str) :
    ∀ acc : Str, (∀ ch ∈ acc, isWs ch = false) →
      ∀ x ∈ pySplitAux l acc, x ≠ [] ∧ ∀ ch ∈ x, isWs ch = false := by
  induction l with
  | nil =>
    intro acc hacc x hx
    simp only [pySplitAux] at hx
    split at hx
    · simp at hx
    · rename_i hne
      simp only [List.mem_singleton] at hx
      subst hx
      refine ⟨by simpa using fun h => hne (by simp [h, List.isEmpty_iff]), ?_⟩
      intro ch hch
      exact hacc ch (List.mem_reverse.mp hch)
  | cons c cs ih =>
    intro acc hacc x hx
    simp only [pySplitAux] at hx
    by_cases hws : isWs c
    · rw [if_pos hws] at hx
      split at hx
      · exact ih [] (by simp) x hx
      · rename_i hne
        rcases List.mem_cons.mp hx with h | h
        · subst h
          refine ⟨by simpa using fun h => hne (by simp [h, List.isEmpty_iff]), ?_⟩
          intro ch hch
          exact hacc ch (List.mem_reverse.mp hch)
        · exact ih [] (by simp) x h
    · rw [if_neg hws] at hx
      refine ih (c :: acc) ?_ x hx
      intro ch hch
      rcases List.mem_cons.mp hch with h | h
      · subst h; simpa using hws
      · exact hacc ch h

/-- Every word produced by `pySplit` is nonempty and whitespace-free. -/
theorem pySplit_quality (l : Str) :
    ∀ x ∈ pySplit l, x ≠ [] ∧ ∀ ch ∈ x, isWs ch = false :=
  pySplitAux_quality l [] (by simp)

/-- A string whose first and last characters are not whitespace is fixed by
`pyStrip`. -/
theorem pyStrip_eq_self (l : Str)
    (h1 : ∀ a, l.head? = some a → isWs a = false)
    (h2 : ∀ a, l.getLast? = some a → isWs a = false) :
    pyStrip l = l := by
  unfold pyStrip
  cases l with
  | nil => simp
  | cons a t =>
    have ha : isWs a = false := h1 a rfl
    rw [List.dropWhile_cons_of_neg (by simp [ha])]
    rcases hrev : (a :: t).reverse with _ | ⟨b, bs⟩
    · simp at hrev
    · have hb : (a :: t).getLast? = some b := by
        rw [← List.head?_reverse, hrev]; rfl
      have hbw : isWs b = false := h2 b hb
      rw [List.dropWhile_cons_of_neg (by simp [hbw])]
      rw [← hrev, List.reverse_reverse]

/-- The join of a nonempty list of nonempty words is nonempty. -/
theorem joinSep_ne_nil (ws : List Str) (hne : ws ≠ [])
    (hq : ∀ x ∈ ws, x ≠ []) : joinSep ' ' ws ≠ [] := by
  rcases ws with _ | ⟨w, rest⟩
  · exact absurd rfl hne
  · have hwne := hq w (by simp)
    rcases w with _ | ⟨c, cs⟩
    · exact absurd rfl hwne
    · cases rest <;> simp [joinSep]

/-- The last character of a join of nonempty whitespace-free words is not
whitespace. -/
theorem joinSep_getLast?_quality :
    ∀ ws : List Str, (∀ x ∈ ws, x ≠ [] ∧ ∀ ch ∈ x, isWs ch = false) →
      ∀ a, (joinSep ' ' ws).getLast? = some a → isWs a = false
  | [], _, a, hl => by simp [joinSep] at hl
  | [w], hq, a, hl => by
    obtain ⟨hwne, hwq⟩ := hq w (by simp)
    simp only [joinSep] at hl
    obtain ⟨h, rfl⟩ := List.mem_getLast?_eq_getLast hl
    exact hwq _ (List.getLast_mem h)
  | w :: x :: xs, hq, a, hl => by
    have hqr : ∀ y ∈ x :: xs, y ≠ [] ∧ ∀ ch ∈ y, isWs ch = false := by
      intro y hy; exact hq y (List.mem_cons_of_mem _ hy)
    have hrne : joinSep ' ' (x :: xs) ≠ [] :=
      joinSep_ne_nil _ (by simp) (fun y hy => (hqr y hy).1)
    have hj : joinSep ' ' (w :: x :: xs) = w ++ ' ' :: joinSep ' ' (x :: xs) := rfl
    rw [hj, List.getLast?_append_cons] at hl
    have heq : (' ' :: joinSep ' ' (x :: xs)).getLast? = (joinSep ' ' (x :: xs)).getLast? := by
      rcases hrr : joinSep ' ' (x :: xs) with _ | ⟨z, zs⟩
      · exact absurd hrr hrne
      · simp
    rw [heq] at hl
    exact joinSep_getLast?_quality (x :: xs) hqr a hl

/-- The join of a nonempty list of nonempty whitespace-free words is nonempty
and fixed by `pyStrip`. -/
theorem pyStrip_joinSep (ws : List Str) (hne : ws ≠ [])
    (hq : ∀ x ∈ ws, x ≠ [] ∧ ∀ ch ∈ x, isWs ch = false) :
    joinSep ' ' ws ≠ [] ∧ pyStrip (joinSep ' ' ws) = joinSep ' ' ws := by
  have hhead : ∀ a, (joinSep ' ' ws).head? = some a → isWs a = false := by
    intro a hh
    rcases ws with _ | ⟨w, rest⟩
    · exact absurd rfl hne
    · obtain ⟨hwne, hwq⟩ := hq w (by simp)
      rcases w with _ | ⟨c, cs⟩
      · exact absurd rfl hwne
      · have hchead : (joinSep ' ' ((c :: cs) :: rest)).head? = some c := by
          cases rest <;> simp [joinSep]
        rw [hchead] at hh
        cases hh
        exact hwq a (by simp)
  have hjoin_ne : joinSep ' ' ws ≠ [] :=
    joinSep_ne_nil ws hne (fun y hy => (hq y hy).1)
  exact ⟨hjoin_ne, pyStrip_eq_self _ hhead (joinSep_getLast?_quality ws hq)⟩

end TextLemmas

section SplitTheorems

/-- Under the word-quality invariant, each loop body appends exactly one
chunk. -/
theorem chunkAppend_length (w : List Str) (c start : ℕ) (acc : List Str)
    (hw : ∀ x ∈ w, x ≠ [] ∧ ∀ ch ∈ x, isWs ch = false)
    (hc : 0 < c) (h1 : start < w.length) :
    (chunkAppend w c start acc).length = acc.length + 1 := by
  have hslice : ((w.drop start).take (min (start + c) w.length - start)).length
      = min (min (start + c) w.length - start) (w.length - start) := by
    simp [List.length_take, List.length_drop]
  have hsne : (w.drop start).take (min (start + c) w.length - start) ≠ [] := by
    intro hnil
    rw [hnil] at hslice
    simp only [List.length_nil] at hslice
    omega
  have hmem : ∀ x ∈ (w.drop start).take (min (start + c) w.length - start),
      x ≠ [] ∧ ∀ ch ∈ x, isWs ch = false := by
    intro x hx
    exact hw x (List.drop_subset _ _ (List.take_subset _ _ hx))
  obtain ⟨hne, hfix⟩ := pyStrip_joinSep _ hsne hmem
  simp only [chunkAppend]
  rw [hfix, if_neg (by simp [List.isEmpty_iff, hne])]
  simp

/-- Exact iteration count of the chunking loop when `overlap < chunk_size`:
from position `start` the loop terminates and appends
`1 + ceil((n - start - chunk_size) / (chunk_size - overlap))` chunks
(`1` when the window already reaches the end). -/
theorem splitLoop_count (w : List Str) (c o : ℕ) (ho : o < c)
    (hw : ∀ x ∈ w, x ≠ [] ∧ ∀ ch ∈ x, isWs ch = false) :
    ∀ fuel start acc, start < w.length → w.length - start ≤ fuel →
      ∃ l, splitLoop w c o fuel start acc = some l ∧
        l.length = acc.length +
          (if w.length ≤ start + c then 1
           else 1 + ((w.length - start - c) + (c - o) - 1) / (c - o)) := by
  intro fuel
  induction fuel with
  | zero => intro start acc h1 h2; omega
  | succ fuel ih =>
    intro start acc h1 h2
    have hc : 0 < c := by omega
    by_cases hend : w.length ≤ start + c
    · refine ⟨chunkAppend w c start acc, ?_, ?_⟩
      · simp only [splitLoop]
        rw [if_pos h1, if_pos (by omega)]
      · rw [chunkAppend_length w c start acc hw hc h1, if_pos hend]
    · have hstep : min (start + c) w.length - o = start + (c - o) := by omega
      have h1' : start + (c - o) < w.length := by omega
      have h2' : w.length - (start + (c - o)) ≤ fuel := by omega
      obtain ⟨l, hl, hlen⟩ := ih (start + (c - o)) (chunkAppend w c start acc) h1' h2'
      refine ⟨l, ?_, ?_⟩
      · simp only [splitLoop]
        rw [if_pos h1, if_neg (by omega), hstep]
        exact hl
      · rw [hlen, chunkAppend_length w c start acc hw hc h1, if_neg hend]
        have hdpos : 0 < c - o := by omega
        by_cases hnear : w.length ≤ start + (c - o) + c
        · rw [if_pos hnear]
          have hdiv : (d : ℕ) → d = c - o → (w.length - start - c + d - 1) / d = 1 := by
            intro d hd
            have heq : w.length - start - c + d - 1 = (w.length - start - c - 1) + d := by omega
            rw [heq, Nat.add_div_right _ (by omega), Nat.div_eq_of_lt (by omega)]
          rw [hdiv (c - o) rfl]
        · rw [if_neg hnear]
          have hL : w.length - (start + (c - o)) - c + (c - o) - 1
              = (w.length - start - c) - 1 := by omega
          have hR : w.length - start - c + (c - o) - 1
              = ((w.length - start - c) - 1) + (c - o) := by omega
          rw [hL, hR, Nat.add_div_right _ hdpos]
          omega

/-- With `chunk_size = overlap = 1` and at least two words, the loop makes no
progress: the computed next start is clamped back to `0` forever. -/
theorem splitLoop_overlap_none (w : List Str) (h2 : 2 ≤ w.length) :
    ∀ fuel acc, splitLoop w 1 1 fuel 0 acc = none := by
  intro fuel
  induction fuel with
  | zero => intro acc; rfl
  | succ fuel ih =>
    intro acc
    simp only [splitLoop]
    rw [if_pos (by omega), if_neg (by omega)]
    have hz : min (0 + 1) w.length - 1 = 0 := by omega
    rw [hz]
    exact ih _

/-- C1 counterexample: with `chunk_size = 1 > 0` and `overlap = 1 ≥ 0` on the
two-word text `"a b"`, `split_text` never terminates (no amount of loop fuel
produces a result), refuting termination for every `overlap ≥ 0`. -/
theorem C1_counterexample :
    ¬ ∃ fuel l, splitTextFuel fuel 1 1 (str "a b") = some l := by
  rintro ⟨fuel, l, h⟩
  simp only [splitTextFuel] at h
  rw [if_neg (by decide), if_neg (by decide)] at h
  rw [splitLoop_overlap_none (pySplit (cleanText (str "a b"))) (by decide) fuel []] at h
  cases h

/-- C1 (amended): `split_text` makes forward progress and terminates for
every input text provided `overlap < chunk_size`: each non-final step the
window start advances by exactly `chunk_size - overlap` words, so fuel equal
to the cleaned word count suffices.  (When `overlap ≥ chunk_size` and the
text has more than `chunk_size` words, the clamping of the next start makes
the loop repeat forever; see the counterexample.) -/
theorem C1_split_text_terminates (c o : ℕ) (ho : o < c) (text : Str) :
    ∃ l, splitTextFuel ((pySplit (cleanText text)).length) c o text = some l := by
  simp only [splitTextFuel]
  by_cases hempty : (pyStrip text).isEmpty
  · rw [if_pos hempty]
    exact ⟨[], rfl⟩
  · rw [if_neg hempty]
    by_cases hlen : (pySplit (cleanText text)).length ≤ c
    · rw [if_pos hlen]
      exact ⟨_, rfl⟩
    · rw [if_neg hlen]
      obtain ⟨l, hl, _⟩ := splitLoop_count (pySplit (cleanText text)) c o ho
        (pySplit_quality _) ((pySplit (cleanText text)).length) 0 [] (by omega) (by omega)
      exact ⟨l, hl⟩

/-- Witness for C1 (amended) at `chunk_size = 2`, `overlap = 0`,
text `"a b c"`. -/
theorem C1_witness :
    ∃ l, splitTextFuel ((pySplit (cleanText (str "a b c"))).length) 2 0 (str "a b c") = some l :=
  C1_split_text_terminates 2 0 (by decide) (str "a b c")

/-- C3: for non-blank text with cleaned word count `n`, `split_text` yields
exactly one chunk when `n ≤ chunk_size` (hence also for `n = chunk_size` and
`n < chunk_size`), and exactly `ceil((n - overlap) / (chunk_size - overlap))`
chunks when `n > chunk_size`, for every `0 ≤ overlap < chunk_size`. -/
theorem C3_chunk_count (c o : ℕ) (ho : o < c) (text : Str)
    (hne : (pyStrip text).isEmpty = false) :
    ∃ l, splitTextFuel ((pySplit (cleanText text)).length) c o text = some l ∧
      l.length = (if (pySplit (cleanText text)).length ≤ c then 1
        else ((pySplit (cleanText text)).length - o + (c - o) - 1) / (c - o)) := by
  simp only [splitTextFuel]
  rw [if_neg (by simp [hne])]
  by_cases hlen : (pySplit (cleanText text)).length ≤ c
  · rw [if_pos hlen, if_pos hlen]
    exact ⟨[cleanText text], rfl, rfl⟩
  · rw [if_neg hlen, if_neg hlen]
    obtain ⟨l, hl, hcount⟩ := splitLoop_count (pySplit (cleanText text)) c o ho
      (pySplit_quality _) ((pySplit (cleanText text)).length) 0 [] (by omega) (by omega)
    refine ⟨l, hl, ?_⟩
    rw [hcount, if_neg (by omega)]
    have hgt : c < (pySplit (cleanText text)).length := by omega
    have hR : (pySplit (cleanText text)).length - o + (c - o) - 1
        = ((pySplit (cleanText text)).length - 0 - c + (c - o) - 1) + (c - o) := by omega
    rw [hR, Nat.add_div_right _ (by omega)]
    simp only [List.length_nil]
    omega

/-- Witness for C3 at `chunk_size = 2`, `overlap = 1`, five-word text:
`ceil((5-1)/(2-1)) = 4` chunks. -/
theorem C3_witness :
    ∃ l, splitTextFuel ((pySplit (cleanText (str "a b c d e"))).length) 2 1 (str "a b c d e") = some l ∧
      l.length = (if (pySplit (cleanText (str "a b c d e"))).length ≤ 2 then 1
        else ((pySplit (cleanText (str "a b c d e"))).length - 1 + (2 - 1) - 1) / (2 - 1)) :=
  C3_chunk_count 2 1 (by decide) (str "a b c d e") (by decide)

end SplitTheorems

section SimilarityTheorems

/-- The list dot product as a `Finset.range` sum over padded entries. -/
theorem dotQ_getD (a : List ℚ) :
    ∀ (b : List ℚ) (n : ℕ), a.length ≤ n → b.length ≤ n →
      dotQ a b = ∑ i ∈ Finset.range n, a.getD i 0 * b.getD i 0 := by
  induction a with
  | nil =>
    intro b n _ _
    simp [dotQ]
  | cons x a' ih =>
    intro b n ha hb
    cases b with
    | nil => simp [dotQ]
    | cons y b' =>
      cases n with
      | zero => simp at ha
      | succ m =>
        have hstep : dotQ (x :: a') (y :: b') = x * y + dotQ a' b' := by
          simp [dotQ]
        rw [hstep, Finset.sum_range_succ']
        simp only [List.getD_cons_succ, List.getD_cons_zero]
        rw [← ih b' m (by simpa using ha) (by simpa using hb)]
        ring

/-- Squared norms are nonnegative. -/
theorem normSq_nonneg (a : List ℚ) : 0 ≤ normSq a := by
  rw [normSq, dotQ_getD a a a.length le_rfl le_rfl]
  exact Finset.sum_nonneg fun i _ => mul_self_nonneg _

/-- Cauchy–Schwarz for list dot products: `(a·b)² ≤ ‖a‖²·‖b‖²`. -/
theorem dotQ_sq_le (a b : List ℚ) : dotQ a b ^ 2 ≤ normSq a * normSq b := by
  rw [dotQ_getD a b (max a.length b.length) (le_max_left _ _) (le_max_right _ _),
    normSq, normSq,
    dotQ_getD a a (max a.length b.length) (le_max_left _ _) (le_max_left _ _),
    dotQ_getD b b (max a.length b.length) (le_max_right _ _) (le_max_right _ _)]
  have hcs := Finset.sum_mul_sq_le_sq_mul_sq (Finset.range (max a.length b.length))
    (fun i => a.getD i 0) (fun i => b.getD i 0)
  have h1 : ∑ i ∈ Finset.range (max a.length b.length), a.getD i 0 ^ 2
      = ∑ i ∈ Finset.range (max a.length b.length), a.getD i 0 * a.getD i 0 :=
    Finset.sum_congr rfl fun i _ => pow_two _
  have h2 : ∑ i ∈ Finset.range (max a.length b.length), b.getD i 0 ^ 2
      = ∑ i ∈ Finset.range (max a.length b.length), b.getD i 0 * b.getD i 0 :=
    Finset.sum_congr rfl fun i _ => pow_two _
  rw [h1, h2] at hcs
  exact hcs

/-- C2 counterexample: for query `[1]` and stored embedding `[0]` (zero
norm), the similarity of `search_similar` is not the claimed guarded `0`:
the division by the zero product of norms is unguarded and produces no
number (IEEE NaN). -/
theorem C2_counterexample : simVal (simPair [(1 : ℚ)] [(0 : ℚ)]) = none := by
  have hz : (simPair [(1 : ℚ)] [(0 : ℚ)]).2 = 0 := by
    simp [simPair, normSq, dotQ]
  simp [simVal, hz]

/-- C2 (amended): whenever both the query vector and a stored embedding have
nonzero norm, the cosine similarity `search_similar` computes for that row is
defined and lies in `[-1, 1]`.  When either norm is zero the division is NOT
guarded: the score is undefined (NaN), not `0`. -/
theorem C2_similarity_in_range (q s : List ℚ) (hq : normSq q ≠ 0) (hs : normSq s ≠ 0) :
    ∃ r : ℝ, simVal (simPair q s) = some r ∧ -1 ≤ r ∧ r ≤ 1 := by
  have hqpos : 0 < normSq q := lt_of_le_of_ne (normSq_nonneg q) (Ne.symm hq)
  have hspos : 0 < normSq s := lt_of_le_of_ne (normSq_nonneg s) (Ne.symm hs)
  have hppos : 0 < normSq q * normSq s := mul_pos hqpos hspos
  have hPpos : (0 : ℝ) < ((normSq q * normSq s : ℚ) : ℝ) := by exact_mod_cast hppos
  have hsqrtpos : 0 < Real.sqrt ((normSq q * normSq s : ℚ) : ℝ) := Real.sqrt_pos.mpr hPpos
  have hcs : ((dotQ q s : ℚ) : ℝ) ^ 2 ≤ ((normSq q * normSq s : ℚ) : ℝ) := by
    have := dotQ_sq_le q s
    exact_mod_cast this
  have habs : |((dotQ q s : ℚ) : ℝ)| ≤ Real.sqrt ((normSq q * normSq s : ℚ) : ℝ) := by
    have h1 := Real.sqrt_le_sqrt hcs
    rwa [Real.sqrt_sq_eq_abs] at h1
  have hdivabs : |((dotQ q s : ℚ) : ℝ) / Real.sqrt ((normSq q * normSq s : ℚ) : ℝ)| ≤ 1 := by
    rw [abs_div, abs_of_pos hsqrtpos]
    exact (div_le_one hsqrtpos).mpr habs
  refine ⟨((dotQ q s : ℚ) : ℝ) / Real.sqrt ((normSq q * normSq s : ℚ) : ℝ), ?_, ?_, ?_⟩
  · simp [simVal, simPair, ne_of_gt hppos]
  · exact (abs_le.mp hdivabs).1
  · exact (abs_le.mp hdivabs).2

/-- Witness for C2 (amended) at query `[1]`, stored `[1]`. -/
theorem C2_witness :
    ∃ r : ℝ, simVal (simPair [(1 : ℚ)] [(1 : ℚ)]) = some r ∧ -1 ≤ r ∧ r ≤ 1 :=
  C2_similarity_in_range [1] [1] (by norm_num [normSq, dotQ]) (by norm_num [normSq, dotQ])

end SimilarityTheorems

section SortTheorems

/-- For positive denominators, `gtPair` decides exactly the strict order of
the real similarity values. -/
theorem gtPair_iff (p q : ℚ × ℚ) (hp : 0 < p.2) (hq : 0 < q.2) :
    (gtPair p q = true) ↔ simValPos q < simValPos p := by
  obtain ⟨d1, P1⟩ := p
  obtain ⟨d2, P2⟩ := q
  simp only at hp hq
  have hP1 : (0 : ℝ) < (P1 : ℝ) := by exact_mod_cast hp
  have hP2 : (0 : ℝ) < (P2 : ℝ) := by exact_mod_cast hq
  have hs1 : 0 < Real.sqrt (P1 : ℝ) := Real.sqrt_pos.mpr hP1
  have hs2 : 0 < Real.sqrt (P2 : ℝ) := Real.sqrt_pos.mpr hP2
  have hsq1 : Real.sqrt (P1 : ℝ) * Real.sqrt (P1 : ℝ) = (P1 : ℝ) := Real.mul_self_sqrt hP1.le
  have hsq2 : Real.sqrt (P2 : ℝ) * Real.sqrt (P2 : ℝ) = (P2 : ℝ) := Real.mul_self_sqrt hP2.le
  have hval : simValPos (d2, P2) < simValPos (d1, P1)
      ↔ (d2 : ℝ) * Real.sqrt (P1 : ℝ) < (d1 : ℝ) * Real.sqrt (P2 : ℝ) := by
    simp only [simValPos]
    exact div_lt_div_iff₀ hs2 hs1
  rw [hval]
  simp only [gtPair]
  by_cases h1 : 0 < d1
  · by_cases h2 : 0 < d2
    · rw [if_pos h1, if_pos h2, decide_eq_true_eq]
      have ha : (0 : ℝ) ≤ (d2 : ℝ) * Real.sqrt (P1 : ℝ) := by
        have : (0 : ℝ) ≤ (d2 : ℝ) := by exact_mod_cast h2.le
        exact mul_nonneg this hs1.le
      have hb : (0 : ℝ) ≤ (d1 : ℝ) * Real.sqrt (P2 : ℝ) := by
        have : (0 : ℝ) ≤ (d1 : ℝ) := by exact_mod_cast h1.le
        exact mul_nonneg this hs2.le
      have hiff := mul_self_lt_mul_self_iff ha hb
      have e1 : (d2 : ℝ) * Real.sqrt (P1 : ℝ) * ((d2 : ℝ) * Real.sqrt (P1 : ℝ))
          = (d2 : ℝ) ^ 2 * (P1 : ℝ) := by
        have : (d2 : ℝ) * Real.sqrt (P1 : ℝ) * ((d2 : ℝ) * Real.sqrt (P1 : ℝ))
            = (d2 : ℝ) ^ 2 * (Real.sqrt (P1 : ℝ) * Real.sqrt (P1 : ℝ)) := by ring
        rw [this, hsq1]
      have e2 : (d1 : ℝ) * Real.sqrt (P2 : ℝ) * ((d1 : ℝ) * Real.sqrt (P2 : ℝ))
          = (d1 : ℝ) ^ 2 * (P2 : ℝ) := by
        have : (d1 : ℝ) * Real.sqrt (P2 : ℝ) * ((d1 : ℝ) * Real.sqrt (P2 : ℝ))
            = (d1 : ℝ) ^ 2 * (Real.sqrt (P2 : ℝ) * Real.sqrt (P2 : ℝ)) := by ring
        rw [this, hsq2]
      rw [e1, e2] at hiff
      constructor
      · intro h
        exact hiff.mpr (by exact_mod_cast h)
      · intro h
        exact_mod_cast hiff.mp h
    · rw [if_pos h1, if_neg h2]
      have hd2 : (d2 : ℝ) ≤ 0 := by exact_mod_cast not_lt.mp h2
      have hd1 : (0 : ℝ) < (d1 : ℝ) := by exact_mod_cast h1
      simp only [true_iff]
      nlinarith [mul_pos hd1 hs2, mul_nonneg (neg_nonneg.mpr hd2) hs1.le]
  · by_cases h2 : 0 < d2
    · rw [if_neg h1, if_pos h2]
      have hd1 : (d1 : ℝ) ≤ 0 := by exact_mod_cast not_lt.mp h1
      have hd2 : (0 : ℝ) < (d2 : ℝ) := by exact_mod_cast h2
      constructor
      · intro h
        simp at h
      · intro h
        have hle : (d1 : ℝ) * Real.sqrt (P2 : ℝ) ≤ (d2 : ℝ) * Real.sqrt (P1 : ℝ) := by
          nlinarith [mul_pos hd2 hs1, mul_nonneg (neg_nonneg.mpr hd1) hs2.le]
        exact absurd h (not_lt.mpr hle)
    · rw [if_neg h1, if_neg h2, decide_eq_true_eq]
      have hd1 : (d1 : ℝ) ≤ 0 := by exact_mod_cast not_lt.mp h1
      have hd2 : (d2 : ℝ) ≤ 0 := by exact_mod_cast not_lt.mp h2
      have ha : (0 : ℝ) ≤ -((d1 : ℝ) * Real.sqrt (P2 : ℝ)) := by
        rw [neg_nonneg]
        exact mul_nonpos_iff.mpr (Or.inr ⟨hd1, hs2.le⟩)
      have hb : (0 : ℝ) ≤ -((d2 : ℝ) * Real.sqrt (P1 : ℝ)) := by
        rw [neg_nonneg]
        exact mul_nonpos_iff.mpr (Or.inr ⟨hd2, hs1.le⟩)
      have hiff := mul_self_lt_mul_self_iff ha hb
      have e1 : -((d1 : ℝ) * Real.sqrt (P2 : ℝ)) * -((d1 : ℝ) * Real.sqrt (P2 : ℝ))
          = (d1 : ℝ) ^ 2 * (P2 : ℝ) := by
        have : -((d1 : ℝ) * Real.sqrt (P2 : ℝ)) * -((d1 : ℝ) * Real.sqrt (P2 : ℝ))
            = (d1 : ℝ) ^ 2 * (Real.sqrt (P2 : ℝ) * Real.sqrt (P2 : ℝ)) := by ring
        rw [this, hsq2]
      have e2 : -((d2 : ℝ) * Real.sqrt (P1 : ℝ)) * -((d2 : ℝ) * Real.sqrt (P1 : ℝ))
          = (d2 : ℝ) ^ 2 * (P1 : ℝ) := by
        have : -((d2 : ℝ) * Real.sqrt (P1 : ℝ)) * -((d2 : ℝ) * Real.sqrt (P1 : ℝ))
            = (d2 : ℝ) ^ 2 * (Real.sqrt (P1 : ℝ) * Real.sqrt (P1 : ℝ)) := by ring
        rw [this, hsq1]
      rw [e1, e2] at hiff
      constructor
      · intro h
        have hr : (d1 : ℝ) ^ 2 * (P2 : ℝ) < (d2 : ℝ) ^ 2 * (P1 : ℝ) := by exact_mod_cast h
        have hneg := hiff.mpr hr
        linarith
      · intro h
        have hneg : -((d1 : ℝ) * Real.sqrt (P2 : ℝ)) < -((d2 : ℝ) * Real.sqrt (P1 : ℝ)) := by
          linarith
        exact_mod_cast hiff.mp hneg

/-- Membership in an insertion. -/
theorem mem_insertDesc {α : Type} (gt : α → α → Bool) (a x : α) :
    ∀ l : List α, x ∈ insertDesc gt a l ↔ x = a ∨ x ∈ l := by
  intro l
  induction l with
  | nil => simp [insertDesc]
  | cons y ys ih =>
    simp only [insertDesc]
    by_cases h : gt y a
    · rw [if_pos h]
      simp [ih]
      tauto
    · rw [if_neg h]
      simp

/-- The sort permutes membership. -/
theorem mem_sortDesc {α : Type} (gt : α → α → Bool) (x : α) :
    ∀ l : List α, x ∈ sortDesc gt l ↔ x ∈ l := by
  intro l
  induction l with
  | nil => simp [sortDesc]
  | cons y ys ih =>
    simp only [sortDesc]
    rw [mem_insertDesc]
    simp [ih]

/-- Inserting into a descending list keeps it descending, when the comparison
agrees with a real-valued key on the relevant elements. -/
theorem pairwise_insertDesc {α : Type} (gt : α → α → Bool) (key : α → ℝ)
    (G : α → Prop) (hgt : ∀ a b, G a → G b → ((gt a b = true) ↔ key b < key a))
    (a : α) (hga : G a) :
    ∀ l : List α, (∀ y ∈ l, G y) →
      l.Pairwise (fun u v => key v ≤ key u) →
      (insertDesc gt a l).Pairwise (fun u v => key v ≤ key u) := by
  intro l
  induction l with
  | nil =>
    intro _ _
    simp [insertDesc]
  | cons y ys ih =>
    intro hgl hp
    have hgy : G y := hgl y (by simp)
    obtain ⟨hy, hys⟩ := List.pairwise_cons.mp hp
    simp only [insertDesc]
    by_cases h : gt y a
    · rw [if_pos h]
      have hka : key a < key y := (hgt y a hgy hga).mp h
      refine List.pairwise_cons.mpr ⟨?_, ?_⟩
      · intro z hz
        rcases (mem_insertDesc gt a z ys).mp hz with rfl | hzys
        · exact hka.le
        · exact hy z hzys
      · exact ih (fun z hz => hgl z (List.mem_cons_of_mem _ hz)) hys
    · rw [if_neg h]
      have hka : key y ≤ key a := by
        by_contra hcon
        exact h ((hgt y a hgy hga).mpr (not_le.mp hcon))
      refine List.pairwise_cons.mpr ⟨?_, hp⟩
      intro z hz
      rcases List.mem_cons.mp hz with rfl | hzys
      · exact hka
      · exact le_trans (hy z hzys) hka

/-- The stable descending sort produces a list that is descending in the real
key. -/
theorem pairwise_sortDesc {α : Type} (gt : α → α → Bool) (key : α → ℝ)
    (G : α → Prop) (hgt : ∀ a b, G a → G b → ((gt a b = true) ↔ key b < key a)) :
    ∀ l : List α, (∀ y ∈ l, G y) →
      (sortDesc gt l).Pairwise (fun u v => key v ≤ key u) := by
  intro l
  induction l with
  | nil =>
    intro _
    simp [sortDesc]
  | cons y ys ih =>
    intro hgl
    simp only [sortDesc]
    refine pairwise_insertDesc gt key G hgt y (hgl y (by simp)) _ ?_ ?_
    · intro z hz
      exact hgl z (List.mem_cons_of_mem _ ((mem_sortDesc gt z ys).mp hz))
    · exact ih (fun z hz => hgl z (List.mem_cons_of_mem _ hz))

/-- Filtering through an insertion of an element that fails the predicate. -/
theorem filter_insertDesc_neg {α : Type} (gt : α → α → Bool) (pf : α → Bool)
    (a : α) (hpa : pf a = false) :
    ∀ l : List α, (insertDesc gt a l).filter pf = l.filter pf := by
  intro l
  induction l with
  | nil => simp [insertDesc, List.filter, hpa]
  | cons y ys ih =>
    simp only [insertDesc]
    by_cases h : gt y a
    · rw [if_pos h]
      simp only [List.filter]
      rw [ih]
    · rw [if_neg h]
      simp only [List.filter, hpa]

/-- Filtering through an insertion of an element that satisfies the
predicate, when every earlier (strictly greater) element fails it: the
element lands first in its class. -/
theorem filter_insertDesc_pos {α : Type} (gt : α → α → Bool) (pf : α → Bool)
    (a : α) (hpa : pf a = true) :
    ∀ l : List α, (∀ y ∈ l, pf y = true → gt y a = false) →
      (insertDesc gt a l).filter pf = a :: l.filter pf := by
  intro l
  induction l with
  | nil =>
    intro _
    simp [insertDesc, List.filter, hpa]
  | cons y ys ih =>
    intro hstop
    simp only [insertDesc]
    by_cases h : gt y a
    · rw [if_pos h]
      have hpy : pf y = false := by
        cases hy : pf y
        · rfl
        · have hfalse := hstop y (by simp) hy
          rw [hfalse] at h
          simp at h
      simp only [List.filter, hpy]
      exact ih (fun z hz hpz => hstop z (List.mem_cons_of_mem _ hz) hpz)
    · rw [if_neg h]
      simp only [List.filter, hpa]

/-- Stability of the descending sort: for any element `x`, the subsequence of
elements with the same score as `x` is unchanged by sorting (equal scores
keep their original retrieval order). -/
theorem sortDesc_stable {α : Type} (gt : α → α → Bool) (key : α → ℝ)
    (G : α → Prop) (hgt : ∀ a b, G a → G b → ((gt a b = true) ↔ key b < key a))
    (x : α) (hx : G x) :
    ∀ l : List α, (∀ y ∈ l, G y) →
      (sortDesc gt l).filter (eqvB gt x) = l.filter (eqvB gt x) := by
  intro l
  induction l with
  | nil => simp [sortDesc]
  | cons a l' ih =>
    intro hgl
    have hga : G a := hgl a (by simp)
    have hgl' : ∀ y ∈ l', G y := fun y hy => hgl y (List.mem_cons_of_mem _ hy)
    simp only [sortDesc]
    by_cases hpa : eqvB gt x a = true
    · have hkeq : key x = key a := by
        have h1 : gt x a = false := by
          have := (Bool.and_eq_true _ _).mp hpa
          simpa using this.1
        have h2 : gt a x = false := by
          have := (Bool.and_eq_true _ _).mp hpa
          simpa using this.2
        have hn1 : ¬ key a < key x := fun hc => by
          rw [(hgt x a hx hga).mpr hc] at h1
          cases h1
        have hn2 : ¬ key x < key a := fun hc => by
          rw [(hgt a x hga hx).mpr hc] at h2
          cases h2
        exact le_antisymm (not_lt.mp hn1) (not_lt.mp hn2)
      rw [filter_insertDesc_pos gt (eqvB gt x) a hpa _ ?_]
      · rw [ih hgl']
        rw [List.filter_cons, if_pos hpa]
      · intro y hy hpy
        have hgy : G y := hgl' y ((mem_sortDesc gt y l').mp hy)
        have hkey : key x = key y := by
          have h1 : gt x y = false := by
            have := (Bool.and_eq_true _ _).mp hpy
            simpa using this.1
          have h2 : gt y x = false := by
            have := (Bool.and_eq_true _ _).mp hpy
            simpa using this.2
          have hn1 : ¬ key y < key x := fun hc => by
            rw [(hgt x y hx hgy).mpr hc] at h1
            cases h1
          have hn2 : ¬ key x < key y := fun hc => by
            rw [(hgt y x hgy hx).mpr hc] at h2
            cases h2
          exact le_antisymm (not_lt.mp hn1) (not_lt.mp hn2)
        by_contra hcon
        have hgya : gt y a = true := by simpa using hcon
        have : key a < key y := (hgt y a hgy hga).mp hgya
        rw [← hkey, ← hkeq] at this
        exact lt_irrefl _ this
    · have hpa' : eqvB gt x a = false := by simpa using hpa
      rw [filter_insertDesc_neg gt (eqvB gt x) a hpa']
      rw [ih hgl']
      rw [List.filter_cons, if_neg (by simp [hpa'])]

/-- Hydration (`filterMap`) preserves a pairwise relation on the scores it
copies. -/
theorem pairwise_hydrate {σ : Type} (getDoc : ℕ → Option Document)
    (R : σ → σ → Prop) :
    ∀ chunks : List (DocumentChunk σ),
      chunks.Pairwise (fun u v => R u.similarity_score v.similarity_score) →
      (hydrate getDoc chunks).Pairwise
        (fun r1 r2 => R r1.relevance_score r2.relevance_score) := by
  intro chunks
  induction chunks with
  | nil =>
    intro _
    simp [hydrate]
  | cons ch chs ih =>
    intro hp
    obtain ⟨hhd, htl⟩ := List.pairwise_cons.mp hp
    simp only [hydrate, List.filterMap_cons]
    cases hdoc : getDoc ch.document_id with
    | none =>
      simp only [Option.map_none']
      exact ih htl
    | some d =>
      simp only [Option.map_some']
      refine List.pairwise_cons.mpr ⟨?_, ih htl⟩
      intro r hr
      simp only [hydrate, List.mem_filterMap] at hr
      obtain ⟨ch', hch', hmap⟩ := hr
      cases hdoc' : getDoc ch'.document_id with
      | none =>
        rw [hdoc'] at hmap
        cases hmap
      | some d' =>
        rw [hdoc'] at hmap
        simp only [Option.map_some', Option.some_inj] at hmap
        subst hmap
        exact hhd ch' hch'

end SortTheorems

section SearchTheorems

/-- Under a nonzero-norm query and nonzero-norm stored embeddings, every
scored chunk has a positive similarity denominator. -/
theorem simChunks_pos (embs : List EmbRow) (docs : List DocRow) (q : List ℚ)
    (category : Option Str) (hq : normSq q ≠ 0)
    (he : ∀ e ∈ embs, normSq e.embedding ≠ 0) :
    ∀ ch ∈ simChunks embs docs q category, 0 < ch.similarity_score.2 := by
  intro ch hch
  simp only [simChunks, List.mem_map] at hch
  obtain ⟨e, he', rfl⟩ := hch
  have hemem : e ∈ embs := by
    cases category with
    | none => exact he'
    | some c =>
      simp only [searchRows] at he'
      exact List.mem_of_mem_filter he'
  have h1 : 0 ≤ normSq q := normSq_nonneg q
  have h2 : 0 ≤ normSq e.embedding := normSq_nonneg _
  have h3 := he e hemem
  show 0 < (simPair q e.embedding).2
  simp only [simPair]
  exact mul_pos (lt_of_le_of_ne h1 (Ne.symm hq)) (lt_of_le_of_ne h2 (Ne.symm h3))

/-- `search_similar` returns at most `top_k` chunks. -/
theorem searchSimilar_length_le (embs : List EmbRow) (docs : List DocRow)
    (q : List ℚ) (topK : ℕ) (category : Option Str) :
    (searchSimilar embs docs q topK category).length ≤ topK := by
  unfold searchSimilar
  rw [List.length_take]
  exact min_le_left _ _

/-- C4: `search_similar` scores every fetched row (all stored chunks, or the
category join when a category is given — see `simChunks`/`searchRows`),
stable-sorts descending and returns the first `top_k`.  Consequently (i) any
returned chunk `r1` before `r2` has `r1.similarity_score ≥ r2.similarity_score`
as real cosine values; (ii) equal scores keep their original retrieval order
(the score-class subsequence is unchanged by sorting); (iii) the hydrated
`SearchResult`s (before department filtering) inherit the same descending
order. -/
theorem C4_search_ranking (embs : List EmbRow) (docs : List DocRow) (q : List ℚ)
    (topK : ℕ) (category : Option Str) (getDoc : ℕ → Option Document)
    (hq : normSq q ≠ 0) (he : ∀ e ∈ embs, normSq e.embedding ≠ 0) :
    (searchSimilar embs docs q topK category).Pairwise
        (fun a b => chunkVal b ≤ chunkVal a)
    ∧ (∀ x ∈ simChunks embs docs q category,
        (sortDesc gtChunk (simChunks embs docs q category)).filter (eqvB gtChunk x)
          = (simChunks embs docs q category).filter (eqvB gtChunk x))
    ∧ (hydrate getDoc (searchSimilar embs docs q topK category)).Pairwise
        (fun r1 r2 => resultVal r2 ≤ resultVal r1) := by
  have hG : ∀ ch ∈ simChunks embs docs q category, 0 < ch.similarity_score.2 :=
    simChunks_pos embs docs q category hq he
  have hgt : ∀ a b : DocumentChunk (ℚ × ℚ), 0 < a.similarity_score.2 →
      0 < b.similarity_score.2 → ((gtChunk a b = true) ↔ chunkVal b < chunkVal a) :=
    fun a b ha hb => gtPair_iff _ _ ha hb
  have hsorted := pairwise_sortDesc gtChunk chunkVal
    (fun ch => 0 < ch.similarity_score.2) hgt (simChunks embs docs q category) hG
  have htake : (searchSimilar embs docs q topK category).Pairwise
      (fun a b => chunkVal b ≤ chunkVal a) :=
    List.Pairwise.sublist (List.take_sublist topK _) hsorted
  refine ⟨htake, ?_, ?_⟩
  · intro x hx
    exact sortDesc_stable gtChunk chunkVal (fun ch => 0 < ch.similarity_score.2)
      hgt x (hG x hx) _ hG
  · exact pairwise_hydrate getDoc (fun s t => simValPos t ≤ simValPos s) _ htake

/-- Witness for C4 at a one-row store with unit query and embedding. -/
theorem C4_witness :
    (searchSimilar [⟨1, 1, str "x", [1], 0⟩] [] [1] 1 none).Pairwise
        (fun a b => chunkVal b ≤ chunkVal a)
    ∧ (∀ x ∈ simChunks [⟨1, 1, str "x", [1], 0⟩] [] [1] none,
        (sortDesc gtChunk (simChunks [⟨1, 1, str "x", [1], 0⟩] [] [1] none)).filter (eqvB gtChunk x)
          = (simChunks [⟨1, 1, str "x", [1], 0⟩] [] [1] none).filter (eqvB gtChunk x))
    ∧ (hydrate (fun _ => none) (searchSimilar [⟨1, 1, str "x", [1], 0⟩] [] [1] 1 none)).Pairwise
        (fun r1 r2 => resultVal r2 ≤ resultVal r1) :=
  C4_search_ranking [⟨1, 1, str "x", [1], 0⟩] [] [1] 1 none (fun _ => none)
    (by norm_num [normSq, dotQ])
    (by
      intro e he
      simp only [List.mem_singleton] at he
      subst he
      norm_num [normSq, dotQ])

end SearchTheorems

section ApplicationTheorems

/-- C5 (code evaluation at the failing input): with the `vacaciones` chunk
ranked first and department `it`, the department filter keeps only the
`trabajo_remoto` document (id 2), yet the returned response's sources are the
unfiltered fresh top-3 search: documents 1 and 2, `vacaciones` first.  The
answer and sources are NOT composed from the department-filtered results;
the filtered list only decides whether the no-results template is used. -/
theorem C5_filter_discarded :
    ((execute depsC5 reqC5).map (fun resp => resp.sources.map (fun s => s.document.id))
        = some [some 1, some 2])
    ∧ ((filterByDepartment (hydrate depsC5.getDoc (depsC5.vsearch [1] 5 none)) (str "it")).2.map
        (fun r => r.document.id) = [some 2]) := by
  constructor
  · rfl
  · rfl

/-- C6: for every result list and every department of the static table other
than `general`, the filter keeps a result unmodified when its document's
category is in the department's category set; otherwise keeps it with
`relevance_score` multiplied by `0.8 = 4/5` when the lowercased concatenation
of chunk text and title contains one of the department's keywords; otherwise
drops it. -/
theorem C6_department_filter (docs : List (SearchResult ℚ)) (dept : Str)
    (hd : dept ∈ [str "rrhh", str "it", str "legal", str "finanzas", str "marketing",
      str "ventas", str "operaciones"]) :
    (filterByDepartment docs dept).2 = docs.filterMap (fun doc =>
      if doc.document.category ∈ getDepartmentCategories dept then some doc
      else if (lookupTable departmentKeywords dept).any (fun kw =>
          decide (kw <:+: pyLower (doc.chunk.chunk_text ++ str " " ++ doc.document.title))) then
        some { doc with relevance_score := doc.relevance_score * (4/5 : ℚ) }
      else none) := by
  have hgen : (dept.isEmpty || pyLower dept == str "general") = false := by
    fin_cases hd <;> decide
  have hlow : pyLower dept = dept := by
    fin_cases hd <;> decide
  have hne : (getDepartmentCategories dept).isEmpty = false := by
    fin_cases hd <;> decide
  unfold filterByDepartment
  rw [if_neg (by simp [hgen])]
  dsimp only
  rw [hlow, List.filterMap_map]
  apply List.filterMap_congr
  intro doc _
  show Prod.snd (filterStep (getDepartmentCategories dept)
      (lookupTable departmentKeywords dept) doc) = _
  unfold filterStep
  by_cases hcat : doc.document.category ∈ getDepartmentCategories dept
  · rw [if_pos (by simp [hne, hcat]), if_pos hcat]
  · rw [if_neg (by simp [hcat]), if_neg hcat]
    by_cases hkw : (lookupTable departmentKeywords dept).any (fun kw =>
        decide (kw <:+: pyLower (doc.chunk.chunk_text ++ str " " ++ doc.document.title))) = true
    · rw [if_pos hkw, if_pos hkw]
    · rw [if_neg hkw, if_neg hkw]

/-- Witness for C6 at department `it` with one kept and one dropped result. -/
theorem C6_witness :
    (filterByDepartment [⟨docVac, chunkVac, 9/10⟩, ⟨docRem, chunkRem, 8/10⟩] (str "it")).2
      = [⟨docVac, chunkVac, 9/10⟩, ⟨docRem, chunkRem, 8/10⟩].filterMap (fun doc =>
        if doc.document.category ∈ getDepartmentCategories (str "it") then some doc
        else if (lookupTable departmentKeywords (str "it")).any (fun kw =>
            decide (kw <:+: pyLower (doc.chunk.chunk_text ++ str " " ++ doc.document.title))) then
          some { doc with relevance_score := doc.relevance_score * (4/5 : ℚ) }
        else none) :=
  C6_department_filter [⟨docVac, chunkVac, 9/10⟩, ⟨docRem, chunkRem, 8/10⟩] (str "it")
    (by decide)

/-- C9 counterexample: `filter_by_department` is not pure — on a result kept
through the keyword path, the caller's object has its `relevance_score`
mutated to `0.8` times its pre-call value, so the post-call state differs
from the input. -/
theorem C9_counterexample :
    (filterByDepartment [srSoft] (str "it")).1 ≠ [srSoft] := by
  intro h
  have hmap := congrArg (List.map (fun r => r.relevance_score)) h
  have heval : (filterByDepartment [srSoft] (str "it")).1.map (fun r => r.relevance_score)
      = [(1 : ℚ) * (4/5)] := rfl
  rw [heval] at hmap
  simp only [List.map_cons, List.map_nil, List.cons.injEq, and_true, srSoft] at hmap
  norm_num at hmap

/-- C9 (amended): `filter_by_department` leaves every input object unchanged
EXCEPT results taken through the keyword-penalty path, whose
`relevance_score` is multiplied by `0.8` in place (the returned list aliases
these mutated objects); with no department or `general` the input is
untouched. -/
theorem C9_filter_mutation (docs : List (SearchResult ℚ)) (dept : Str) :
    (filterByDepartment docs dept).1
      = if (dept.isEmpty || pyLower dept == str "general") = true then docs
        else docs.map (fun doc =>
          if (!(getDepartmentCategories (pyLower dept)).isEmpty
              && decide (doc.document.category ∈ getDepartmentCategories (pyLower dept))) = true then
            doc
          else if (lookupTable departmentKeywords (pyLower dept)).any (fun kw =>
              decide (kw <:+: pyLower (doc.chunk.chunk_text ++ str " " ++ doc.document.title))) = true then
            { doc with relevance_score := doc.relevance_score * (4/5 : ℚ) }
          else doc) := by
  unfold filterByDepartment
  by_cases hgen : (dept.isEmpty || pyLower dept == str "general") = true
  · rw [if_pos hgen, if_pos hgen]
  · rw [if_neg hgen, if_neg hgen]
    dsimp only
    rw [List.map_map]
    apply List.map_congr_left
    intro doc _
    show Prod.fst (filterStep (getDepartmentCategories (pyLower dept))
        (lookupTable departmentKeywords (pyLower dept)) doc) = _
    unfold filterStep
    by_cases hcat : (!(getDepartmentCategories (pyLower dept)).isEmpty
        && decide (doc.document.category ∈ getDepartmentCategories (pyLower dept))) = true
    · rw [if_pos hcat, if_pos hcat]
    · rw [if_neg hcat, if_neg hcat]
      by_cases hkw : (lookupTable departmentKeywords (pyLower dept)).any (fun kw =>
          decide (kw <:+: pyLower (doc.chunk.chunk_text ++ str " " ++ doc.document.title))) = true
      · rw [if_pos hkw, if_pos hkw]
      · rw [if_neg hkw, if_neg hkw]

/-- C7: when the hydrated result set of `generate_response`'s internal search
is empty, the response is the fixed template answer with confidence `0` and
no sources; when it is non-empty, the returned confidence is the exact
arithmetic mean of `relevance_score` over all hydrated results, which are
returned as the sources. -/
theorem C7_confidence_mean (D : RagDeps) (query : Str) (useAi : Bool)
    (rs : List (SearchResult ℚ)) (hq : (pyStrip query).isEmpty = false)
    (hs : searchDocuments D query 3 none = some rs) :
    (rs = [] → generateResponse D query useAi
        = some { answer := noInfoAnswer, sources := [], confidence := 0, query := query })
    ∧ (rs ≠ [] → ∃ resp, generateResponse D query useAi = some resp
        ∧ resp.sources = rs
        ∧ resp.confidence = (rs.map (fun r => r.relevance_score)).sum / (rs.length : ℚ)) := by
  constructor
  · intro hrs
    subst hrs
    unfold generateResponse
    rw [if_neg (by simp [hq]), hs]
    rfl
  · intro hrs
    unfold generateResponse
    rw [if_neg (by simp [hq]), hs]
    dsimp only
    rw [if_neg (by simp [List.isEmpty_iff, hrs])]
    exact ⟨_, rfl, rfl, rfl⟩

/-- Witness for C7 at the C5 collaborators and query `"hola"` (two hydrated
results). -/
theorem C7_witness :
    (rsC7 = [] → generateResponse depsC5 (str "hola") false
        = some { answer := noInfoAnswer, sources := [], confidence := 0, query := str "hola" })
    ∧ (rsC7 ≠ [] → ∃ resp, generateResponse depsC5 (str "hola") false = some resp
        ∧ resp.sources = rsC7
        ∧ resp.confidence = (rsC7.map (fun r => r.relevance_score)).sum / (rsC7.length : ℚ)) :=
  C7_confidence_mean depsC5 (str "hola") false rsC7 (by decide) (by rfl)

/-- `generate_response` searches with the fixed internal `top_k = 3`, so its
sources are at most 3 when the vector store honors its `top_k` contract. -/
theorem generateResponse_sources_le (D : RagDeps)
    (hv : ∀ e c, (D.vsearch e 3 c).length ≤ 3) (query : Str) (useAi : Bool) :
    ∀ r, generateResponse D query useAi = some r → r.sources.length ≤ 3 := by
  intro r h
  unfold generateResponse at h
  by_cases hq : (pyStrip query).isEmpty
  · rw [if_pos hq] at h
    cases h
  · rw [if_neg hq] at h
    cases hs : searchDocuments D query 3 none with
    | none =>
      rw [hs] at h
      cases h
    | some results =>
      rw [hs] at h
      dsimp only at h
      have hres : results = hydrate D.getDoc (D.vsearch (D.encode (pyStrip query)) 3 none) := by
        unfold searchDocuments at hs
        rw [if_neg hq] at hs
        exact (Option.some_inj.mp hs).symm
      have hlen : results.length ≤ 3 := by
        rw [hres]
        unfold hydrate
        exact le_trans (List.length_filterMap_le _ _) (hv _ none)
      by_cases hemp : results.isEmpty
      · rw [if_pos hemp] at h
        injection h with h'
        rw [← h']
        simp
      · rw [if_neg hemp] at h
        injection h with h'
        rw [← h']
        simpa using hlen

/-- C10: the ask flow validates the caller's `top_k` into `[1, 20]`, but the
response's sources come from `generate_response`'s internal search with fixed
`top_k = 3`: whenever `execute` returns a response its source list has at
most 3 entries, regardless of the request's `top_k`; an out-of-range `top_k`
is rejected. -/
theorem C10_sources_at_most_three (D : RagDeps)
    (hv : ∀ e c, (D.vsearch e 3 c).length ≤ 3) (req : AskQuestionRequest) :
    (∀ resp, execute D req = some resp → resp.sources.length ≤ 3)
    ∧ (¬(1 ≤ req.topK ∧ req.topK ≤ 20) → execute D req = none) := by
  constructor
  · intro resp h
    unfold execute at h
    cases hvr : validateRequest req with
    | false =>
      rw [hvr] at h
      simp at h
    | true =>
      rw [hvr] at h
      simp only [Bool.not_true, Bool.false_eq_true, if_false] at h
      cases hs : searchDocuments D req.question req.topK.toNat none with
      | none =>
        rw [hs] at h
        cases h
      | some results =>
        rw [hs] at h
        dsimp only at h
        by_cases hemp : (match req.department with
            | some d => (filterByDepartment results d).2
            | none => results).isEmpty
        · rw [if_pos hemp] at h
          injection h with h'
          rw [← h']
          simp [convertToResponseDto]
        · rw [if_neg hemp] at h
          cases hg : generateResponse D req.question req.useAi with
          | none =>
            rw [hg] at h
            cases h
          | some r =>
            rw [hg] at h
            dsimp only at h
            injection h with h'
            rw [← h']
            have := generateResponse_sources_le D hv req.question req.useAi r hg
            simpa [convertToResponseDto] using this
  · intro hk
    unfold execute
    have hvr : validateRequest req = false := by
      unfold validateRequest
      rcases not_and_or.mp hk with h1 | h1
      · simp [h1]
      · simp [h1]
    rw [hvr]
    simp

/-- Witness for C10: an out-of-range `top_k = 0` is rejected. -/
theorem C10_witness : execute depsC5 reqBad = none :=
  (C10_sources_at_most_three depsC5
    (by
      intro e c
      show (List.take 3 [chunkVac, chunkRem]).length ≤ 3
      decide) reqBad).2 (by decide)

end ApplicationTheorems

section EmbeddingTheorems

/-- Big-endian byte serialization produces bytes. -/
theorem bytesBE_lt (k n : ℕ) : ∀ b ∈ bytesBE k n, b < 256 := by
  intro b hb
  simp only [bytesBE, List.mem_map] at hb
  obtain ⟨i, _, rfl⟩ := hb
  exact Nat.mod_lt _ (by norm_num)

/-- Every entry of a SHA-256 digest is a byte. -/
theorem sha256Bytes_lt (msg : List ℕ) : ∀ b ∈ sha256Bytes msg, b < 256 := by
  intro b hb
  simp only [sha256Bytes, List.mem_flatten, List.mem_map] at hb
  obtain ⟨l, ⟨wd, _, rfl⟩, hbl⟩ := hb
  exact bytesBE_lt 4 wd b hbl

/-- C8 (amended): on non-blank text the hash fallback of `encode_text`
returns a 128-dimensional vector derived by SHA-256-hashing the stripped
text, every component lying in the CLOSED interval `[0, 1]` (a digest byte
`255` maps to exactly `255/255 = 1`, so `[0,1)` is wrong); determinism is
immediate since the model is a pure function of the text. -/
theorem C8_fallback_embedding (text : Str) (hne : (pyStrip text).isEmpty = false) :
    ∃ v, encodeText text = some v ∧ v.length = 128 ∧ ∀ x ∈ v, 0 ≤ x ∧ x ≤ 1 := by
  unfold encodeText
  rw [if_neg (by simp [hne])]
  refine ⟨_, rfl, ?_, ?_⟩
  · rw [List.length_map]
    split
    · rename_i hle
      rw [List.length_take]
      omega
    · rename_i hgt
      rw [List.length_append, List.length_replicate]
      omega
  · intro x hx
    simp only [List.mem_map] at hx
    obtain ⟨b, hb, rfl⟩ := hx
    have hble : b ≤ 255 := by
      split at hb
      · have := sha256Bytes_lt (utf8Encode (pyStrip text)) b (List.take_subset _ _ hb)
        omega
      · rcases List.mem_append.mp hb with hmem | hmem
        · have := sha256Bytes_lt (utf8Encode (pyStrip text)) b hmem
          omega
        · rw [List.eq_of_mem_replicate hmem]
          omega
    constructor
    · exact div_nonneg (Nat.cast_nonneg b) (by norm_num)
    · rw [div_le_one (by norm_num)]
      exact_mod_cast hble

/-- Witness for C8 (amended) at the non-blank text `"hola"`. -/
theorem C8_witness :
    ∃ v, encodeText (str "hola") = some v ∧ v.length = 128 ∧ ∀ x ∈ v, 0 ≤ x ∧ x ≤ 1 :=
  C8_fallback_embedding (str "hola") (by decide)

set_option maxRecDepth 100000 in
/-- C8 counterexample: the digest of `"g"` contains the byte `255`, whose
component is `255 / 255.0 = 1.0`, which is NOT in `[0, 1)`: the code divides
by `255`, not `256`. -/
theorem C8_counterexample :
    ∃ v, encodeText (str "g") = some v ∧ ∃ x ∈ v, ¬ x < 1 := by
  have hd : sha256Bytes (utf8Encode (pyStrip (str "g")))
      = [205, 10, 169, 133, 97, 71, 182, 197, 180, 255, 43, 125, 254, 229, 218, 32,
         170, 56, 37, 48, 153, 239, 27, 74, 100, 172, 237, 35, 60, 154, 254, 41] := by
    decide
  unfold encodeText
  rw [if_neg (by decide)]
  refine ⟨_, rfl, ?_⟩
  rw [hd, if_neg (by decide)]
  refine ⟨((255 : ℕ) : ℚ) / 255, ?_, by norm_num⟩
  refine List.mem_map.mpr ⟨255, ?_, rfl⟩
  refine List.mem_append.mpr (Or.inl ?_)
  decide

end EmbeddingTheorems
